import Mathlib

/-!
Shallow embedding of the gisquick-server OWS authorization gateway and
project file synchronization handlers (package `server`: `handleMapOws`,
`handleUpload`, `handleDeleteProjectFiles`), together with theorems about
the behaviour of the embedded code.

Sources embedded here:
- the OWS handler and its in-request permission memoization
  (`handleMapOws`, `getLayerPermissions`),
- the upload handler with its 100 MB body cap and its content provider
  (`handleUpload`, `nextFile`, `ProgressReader.Read`),
- the file deletion handler (`handleDeleteProjectFiles`),
- the Go standard library string and path helpers these handlers use
  (`strings.Split`, `strings.HasSuffix`, `strings.TrimSuffix`,
  `filepath.Ext`, `filepath.Join`, `path.Clean`).
-/

namespace Gisquick

/-! ## Go standard library helpers -/

/-- Splits a character list at every occurrence of the separator, keeping
empty groups, as Go `strings.Split` does on the bytes of a string. -/
def splitChar : List Char → Char → List (List Char)
  | [], _ => [[]]
  | x :: xs, c =>
    match splitChar xs c with
    | [] => [[]]
    | g :: gs => if x = c then [] :: g :: gs else (x :: g) :: gs

/-- Go `strings.HasSuffix s suffix`: tests whether `s` ends with the given
suffix, modelled on the character lists of the two strings. -/
def goHasSuffix (s suffix : String) : Bool :=
  suffix.data.isSuffixOf s.data

/-- Go `strings.TrimSuffix s suffix`: removes the suffix when present,
returns `s` unchanged otherwise. -/
def goTrimSuffix (s suffix : String) : String :=
  if goHasSuffix s suffix then
    String.mk (s.data.take (s.data.length - suffix.data.length))
  else s

/-- Helper for `goFilepathExt`: scans the reversed character list of a path
until the first dot (returning the extension) or a path separator or the
start of the string (returning the empty extension). -/
def extFromRev : List Char → List Char → String
  | [], _ => ""
  | c :: rest, acc =>
    if c = '/' then ""
    else if c = '.' then String.mk ('.' :: acc)
    else extFromRev rest (c :: acc)

/-- Go `filepath.Ext path`: the suffix beginning at the final dot in the
final slash-separated element of the path; empty when there is no dot. -/
def goFilepathExt (path : String) : String :=
  extFromRev path.data.reverse []

/-- Go `path.Clean` for slash-separated paths (equal to `filepath.Clean`
on Unix): applies the usual lexical simplifications, dropping empty and
dot segments and resolving dot-dot segments against the preceding ones. -/
def goPathClean (path : String) : String :=
  if path = "" then "."
  else
    let rooted : Bool := match path.data with
      | '/' :: _ => true
      | _ => false
    let segs := (splitChar path.data '/').map String.mk
    let out := segs.foldl (fun acc seg =>
      if seg = "" ∨ seg = "." then acc
      else if seg = ".." then
        match acc with
        | [] => if rooted then [] else [".."]
        | s :: rest => if s = ".." then ".." :: s :: rest else rest
      else seg :: acc) []
    let body := String.intercalate "/" out.reverse
    if rooted then (if body = "" then "/" else "/" ++ body)
    else (if body = "" then "." else body)

/-- Go `filepath.Join elems`: skips leading empty elements, joins the rest
with the separator and cleans the result; the empty string when every
element is empty. -/
def goFilepathJoin (elems : List String) : String :=
  match elems.dropWhile (fun e => e = "") with
  | [] => ""
  | rest => goPathClean (String.intercalate "/" rest)

/-! ## Association lists standing for Go maps -/

/-- Lookup in an association list, the model of indexing a Go map. -/
def lookupAssoc {α : Type} : List (String × α) → String → Option α
  | [], _ => none
  | (k, v) :: rest, key => if k = key then some v else lookupAssoc rest key

/-- Overwriting insertion into an association list, the model of a Go map
assignment. -/
def insertAssoc {α : Type} : List (String × α) → String → α → List (String × α)
  | [], key, v => [(key, v)]
  | (k, w) :: rest, key, v =>
    if k = key then (k, v) :: rest else (k, w) :: insertAssoc rest key v

/-! ## Domain data model (package `domain` and the types the handlers bind) -/

/-- Per-layer CRUD capability flags (`domain.LayerPermission`). -/
structure LayerPermission where
  view : Bool
  insert : Bool
  update : Bool
  delete : Bool
deriving DecidableEq, Repr

/-- Authenticated user identity as the handlers consume it. -/
structure User where
  username : String
  isSuperuser : Bool
deriving DecidableEq, Repr

/-- Project layer data: the mapping from layer names to layer identifiers
used by the WFS authorization step (`layersData.LayerNameToID`). -/
structure LayersData where
  layerNameToID : List (String × String)
deriving DecidableEq, Repr

/-- Project settings as the OWS handler consumes them: the handler only
calls `settings.UserLayerPermissions(user, id)`, so the settings are
embedded as that resolution function. -/
structure ProjectSettings where
  userLayerPermissions : User → String → LayerPermission

/-- Project metadata returned by `s.projects.GetProjectInfo`: the fields
the embedded handlers read. -/
structure ProjectInfo where
  qgisFile : String
  state : String
deriving DecidableEq, Repr

/-- Query parameters bound by the OWS handler (`OwsRequestParams` with
`Service`, `Request` and `Map` fields, bound from the query string). -/
structure OwsRequestParams where
  service : String
  request : String
  map : String
deriving DecidableEq, Repr

/-- A WFS Update operation as decoded from the transaction body
(`u.TypeName`). -/
structure UpdateOp where
  typeName : String
deriving DecidableEq, Repr

/-- One object inside a WFS Insert operation; the authorization loop reads
its XML element name (`o.XMLName.Local`). -/
structure InsertObject where
  xmlNameLocal : String
deriving DecidableEq, Repr

/-- A WFS Insert operation: a list of inserted objects (`i.Objects`). -/
structure InsertOp where
  objects : List InsertObject
deriving DecidableEq, Repr

/-- A WFS Delete operation (`d.TypeName`). -/
structure DeleteOp where
  typeName : String
deriving DecidableEq, Repr

/-- A decoded WFS transaction body (`Transaction` with `Updates`,
`Inserts` and `Deletes` collections). -/
structure Transaction where
  updates : List UpdateOp
  inserts : List InsertOp
  deletes : List DeleteOp
deriving DecidableEq, Repr

/-! ## The in-request permission memoization of `handleMapOws` -/

/-- The closure `getLayerPermissions` from `handleMapOws` (part_001 lines
124 to 136), embedded with the memoization map `perms` passed and returned
explicitly. It splits the type name at colons, takes the last segment,
maps it to a layer id (the empty string when unknown, as the Go map read
with a discarded second result yields the zero value), and consults the
memo: on a hit it returns the cached permission; on a miss it computes
`settings.UserLayerPermissions(user, id)`, stores it in the memo, and then
falls through to the final statement of the closure, which returns the
all-false permission literal. -/
def getLayerPermissions (layersData : LayersData) (settings : ProjectSettings)
    (user : User) (perms : List (String × LayerPermission)) (typeName : String) :
    LayerPermission × List (String × LayerPermission) :=
  let parts := (splitChar typeName.data ':').map String.mk
  let lname := parts.getLastD ""
  let id := (lookupAssoc layersData.layerNameToID lname).getD ""
  match lookupAssoc perms id with
  | some perm => (perm, perms)
  | none =>
    let perm := settings.userLayerPermissions user id
    let permsNew := insertAssoc perms id perm
    (⟨false, false, false, false⟩, permsNew)

/-- The resolution of a layer type name to its permission as specified for
the Permission Resolver: split at colons, take the trailing segment, map
it to a layer id and consult the per-user settings. This mirrors the
computation at part_001 lines 125 to 127 and 132 without the memoization
bookkeeping; the claims about "the resolved layer permission" of an
operation refer to this value. -/
def resolveLayerPermission (layersData : LayersData) (settings : ProjectSettings)
    (user : User) (typeName : String) : LayerPermission :=
  let parts := (splitChar typeName.data ':').map String.mk
  let lname := parts.getLastD ""
  let id := (lookupAssoc layersData.layerNameToID lname).getD ""
  settings.userLayerPermissions user id

/-! ## The WFS transaction authorization loops -/

/-- The Updates loop of `handleMapOws` (part_001 lines 145 to 149):
returns the memo after all checks pass, or an error at the first update
whose permission lacks the update flag. -/
def checkUpdates (layersData : LayersData) (settings : ProjectSettings) (user : User) :
    List UpdateOp → List (String × LayerPermission) →
    Except Unit (List (String × LayerPermission))
  | [], perms => .ok perms
  | u :: rest, perms =>
    let r := getLayerPermissions layersData settings user perms u.typeName
    if r.1.update then checkUpdates layersData settings user rest r.2
    else .error ()

/-- The inner objects loop of one Insert operation (part_001 lines 151 to
155). -/
def checkInsertObjects (layersData : LayersData) (settings : ProjectSettings) (user : User) :
    List InsertObject → List (String × LayerPermission) →
    Except Unit (List (String × LayerPermission))
  | [], perms => .ok perms
  | o :: rest, perms =>
    let r := getLayerPermissions layersData settings user perms o.xmlNameLocal
    if r.1.insert then checkInsertObjects layersData settings user rest r.2
    else .error ()

/-- The Inserts loop of `handleMapOws` (part_001 lines 150 to 156). -/
def checkInserts (layersData : LayersData) (settings : ProjectSettings) (user : User) :
    List InsertOp → List (String × LayerPermission) →
    Except Unit (List (String × LayerPermission))
  | [], perms => .ok perms
  | i :: rest, perms =>
    match checkInsertObjects layersData settings user i.objects perms with
    | .error e => .error e
    | .ok permsNew => checkInserts layersData settings user rest permsNew

/-- The Deletes loop of `handleMapOws` (part_001 lines 157 to 161). -/
def checkDeletes (layersData : LayersData) (settings : ProjectSettings) (user : User) :
    List DeleteOp → List (String × LayerPermission) →
    Except Unit (List (String × LayerPermission))
  | [], perms => .ok perms
  | d :: rest, perms =>
    let r := getLayerPermissions layersData settings user perms d.typeName
    if r.1.delete then checkDeletes layersData settings user rest r.2
    else .error ()

/-- The whole authorization pass over a WFS transaction body, in source
order: all Updates, then all Inserts, then all Deletes, threading the
memoization map that starts empty (`perms := make(...)` at line 109). -/
def checkTransaction (layersData : LayersData) (settings : ProjectSettings)
    (user : User) (tx : Transaction) : Except Unit Unit :=
  match checkUpdates layersData settings user tx.updates [] with
  | .error e => .error e
  | .ok perms1 =>
    match checkInserts layersData settings user tx.inserts perms1 with
    | .error e => .error e
    | .ok perms2 =>
      match checkDeletes layersData settings user tx.deletes perms2 with
      | .error e => .error e
      | .ok _ => .ok ()

/-! ## URLs, the reverse-proxy director and the OWS handler -/

/-- The parts of a `net/url.URL` the handlers touch: scheme, host, path
and the query values, the latter as an association list standing for the
`url.Values` map. -/
structure URL where
  scheme : String
  host : String
  path : String
  query : List (String × String)
deriving DecidableEq, Repr

/-- Go `url.Values.Set key value`: the key now maps to exactly this
value. -/
def setQueryParam (q : List (String × String)) (key value : String) :
    List (String × String) :=
  insertAssoc q key value

/-- Go `url.Values.Get key`: the value stored for the key, if any. -/
def getQueryParam (q : List (String × String)) (key : String) : Option String :=
  lookupAssoc q key

/-- The outgoing request handed to the reverse proxy: its URL and the
User-Agent header (`none` when the header is absent). -/
structure ProxyRequest where
  url : URL
  userAgent : Option String
deriving DecidableEq, Repr

/-- The `director` closure of `handleMapOws` (part_001 lines 74 to 85):
replaces the request URL path, scheme and host with those of the
configured map-rendering service, and when the request carries no
User-Agent header sets it to the empty string so no default is
injected. -/
def director (target : URL) (req : ProxyRequest) : ProxyRequest :=
  let u : URL := { req.url with
    path := target.path
    scheme := target.scheme
    host := target.host }
  let ua : Option String := match req.userAgent with
    | some v => some v
    | none => some ""
  { url := u, userAgent := ua }

/-- The environment of collaborators `handleMapOws` consults: the parsed
map-rendering service URL (`s.Config.MapserverURL`), and the project
store lookups `GetProjectInfo`, `GetSettings` and `GetLayersData`, each
returning `none` on failure. -/
structure OwsEnv where
  mapserverURL : URL
  projectInfo : String → Option ProjectInfo
  settingsOf : String → Option ProjectSettings
  layersDataOf : String → Option LayersData

/-- One inbound OWS request as the handler observes it: the `:user` and
`:name` path parameters, the bound query parameters, the result of XML
unmarshalling of the request body into a `Transaction` (`Except.error`
when unmarshalling fails), the authenticated user, the incoming request
URL and the presence of a User-Agent header. -/
structure OwsInput where
  userParam : String
  nameParam : String
  params : OwsRequestParams
  body : Except Unit Transaction
  user : User
  reqURL : URL
  userAgentHeader : Option String

/-- The observable outcome of one `handleMapOws` invocation. -/
inductive OwsResult where
  /-- `echo.ErrNotFound` for a missing project. -/
  | notFound
  /-- the propagated error when `GetSettings` fails. -/
  | settingsErr
  /-- the propagated error when `GetLayersData` fails. -/
  | layersErr
  /-- the propagated error when the transaction body fails to parse. -/
  | parseErr
  /-- `echo.ErrUnauthorized` from the authorization loops. -/
  | unauthorized
  /-- the request was handed to the reverse proxy in this final shape. -/
  | proxied (req : ProxyRequest)
deriving DecidableEq, Repr

/-- Outcome of the handler together with the recorded arguments of its
calls to `s.projects.GetLayersData`, the effect trace the layer-data
claims are stated on. -/
structure OwsOutcome where
  result : OwsResult
  layersDataCalls : List String
deriving DecidableEq, Repr

/-- `getProjectName` (part_001 lines 19 to 23): joins the `:user` and
`:name` path parameters. -/
def getProjectName (userParam nameParam : String) : String :=
  goFilepathJoin [userParam, nameParam]

/-- The final forwarding step of `handleMapOws` (part_001 lines 164 to
170): builds the absolute backend path of the project definition file,
sets the `MAP` query parameter on the incoming URL, and hands the request
to the reverse proxy whose director rewrites scheme, host and path. -/
def forwardToMapserver (env : OwsEnv) (c : OwsInput) (projectName : String)
    (pInfo : ProjectInfo) : ProxyRequest :=
  let owsProject := goFilepathJoin ["/publish", projectName, pInfo.qgisFile]
  let query := setQueryParam c.reqURL.query "MAP" owsProject
  let req : ProxyRequest := { url := { c.reqURL with query := query }, userAgent := c.userAgentHeader }
  director env.mapserverURL req

/-- The request handler returned by `handleMapOws` (part_001 lines 87 to
172): resolve the project from the URL path parameters (`NotFound` when
absent), load its settings, and when the request is a WFS request with an
empty `Request` parameter, load the layer data of the project named by
the `MAP` query parameter with its extension trimmed, decode the
transaction body and run the three authorization loops; any other
request, or a transaction that passed authorization, is forwarded to the
map-rendering service. The handler never reads `pInfo.state`. -/
def handleMapOws (env : OwsEnv) (c : OwsInput) : OwsOutcome :=
  let projectName := getProjectName c.userParam c.nameParam
  match env.projectInfo projectName with
  | none => ⟨.notFound, []⟩
  | some pInfo =>
    match env.settingsOf projectName with
    | none => ⟨.settingsErr, []⟩
    | some settings =>
      if c.params.service = "WFS" ∧ c.params.request = "" then
        let mapProjectName := goTrimSuffix c.params.map (goFilepathExt c.params.map)
        match env.layersDataOf mapProjectName with
        | none => ⟨.layersErr, [mapProjectName]⟩
        | some layersData =>
          match c.body with
          | .error _ => ⟨.parseErr, [mapProjectName]⟩
          | .ok tx =>
            match checkTransaction layersData settings c.user tx with
            | .error _ => ⟨.unauthorized, [mapProjectName]⟩
            | .ok _ => ⟨.proxied (forwardToMapserver env c projectName pInfo), [mapProjectName]⟩
      else ⟨.proxied (forwardToMapserver env c projectName pInfo), []⟩

/-! ## Upload handling: gzip wrapping, progress and the size cap -/

/-- One multipart part as the upload handler observes it: its form name,
its declared file name and its raw content bytes. -/
structure Part where
  formName : String
  fileName : String
  content : List Nat
deriving DecidableEq, Repr

/-- Models `compress/gzip.NewReader`: constructing the reader validates the
gzip header of the stream (magic bytes 31 and 139); on a valid header it
yields a reader over the remaining payload (decompression itself is
abstracted), on an invalid one it fails. -/
def gzipNewReader (content : List Nat) : Except Unit (List Nat)  :=
  match content with
  | m1 :: m2 :: rest => if m1 = 31 ∧ m2 = 139 then .ok rest else .error ()
  | _ => .error ()

/-- The reader value the content provider hands on: either a usable reader
over bytes, or the nil reader left behind when `gzip.NewReader` failed and
its error was discarded. -/
inductive ReaderHandle where
  | reader (bytes : List Nat)
  | nilReader
deriving DecidableEq, Repr

/-- Mutable state of the `ProgressReader` (settings.go lines 68 to 74):
bytes counted so far and the count at the last callback. -/
structure ProgressState where
  progress : Nat
  lastVal : Nat
deriving DecidableEq, Repr

/-- `ProgressReader.Read` (settings.go lines 76 to 84) after the inner
read returned `n` bytes with end-of-stream flag `isEOF`: the progress
counter advances by `n`, and when at least `Step` bytes accumulated since
the last callback, or the stream ended, the callback fires on the new
total. The callback is passed explicitly together with the state it
updates. -/
def progressRead {σ : Type} (step : Nat) (cb : Nat → σ → σ)
    (n : Nat) (isEOF : Bool) (ps : ProgressState) (s : σ) : ProgressState × σ :=
  let progress := ps.progress + n
  if step ≤ progress - ps.lastVal ∨ isEOF = true then
    ({ progress := progress, lastVal := progress }, cb progress s)
  else ({ ps with progress := progress }, s)

/-- Request-scoped state threaded through `nextFile` (settings.go lines
136 to 163): the remaining multipart parts with the kind of end the part
reader will signal once they are exhausted (`endIsEOF` is true for
`io.EOF`, false for a transport failure), the per-field progress
snapshot, the time of the last sent notification, and the trace of
notifications sent so far as (username, event type, payload) triples. -/
structure UploadState where
  parts : List Part
  endIsEOF : Bool
  uploadProgress : List (String × Nat)
  lastNotification : Nat
  sent : List (String × String × List (String × Nat))
deriving DecidableEq, Repr

/-- The throttled progress callback built inside `nextFile` (settings.go
lines 150 to 161): records the count for the form field, and when more
than half a second passed since the last notification, sends the snapshot
to the user and resets it. Times are in milliseconds. -/
def uploadCallback (username formName : String) (now : Nat) (p : Nat)
    (st : UploadState) : UploadState :=
  let st := { st with uploadProgress := insertAssoc st.uploadProgress formName p }
  if 500 < now - st.lastNotification then
    { st with
      sent := st.sent ++ [(username, "UploadProgress", st.uploadProgress)]
      lastNotification := now
      uploadProgress := [] }
  else st

/-- The content provider `nextFile` of `handleUpload` (settings.go lines
138 to 163): pulls the next multipart part; when the part reader signals
`io.EOF` it sends a final `UploadProgress` snapshot to the user and
returns the end-of-sequence error; when the part file name ends in `.gz`
while its form name does not, the part is wrapped in a gzip reader whose
construction error is discarded, so an invalid gzip stream leaves the nil
reader in place. The returned reader is the part content (or the gzip
payload, or nil), to be wrapped in a `ProgressReader` with step 32768. -/
def nextFile (username : String) (st : UploadState) :
    Except Unit (String × ReaderHandle) × UploadState :=
  match st.parts with
  | [] =>
    if st.endIsEOF then
      (.error (), { st with
        sent := st.sent ++ [(username, "UploadProgress", st.uploadProgress)] })
    else (.error (), st)
  | part :: rest =>
    let partReader : ReaderHandle :=
      if goHasSuffix part.fileName ".gz" = true ∧ goHasSuffix part.formName ".gz" = false then
        match gzipNewReader part.content with
        | .ok bytes => .reader bytes
        | .error _ => .nilReader
      else .reader part.content
    (.ok (part.formName, partReader), { st with parts := rest })

/-! ## The upload body size cap of `handleUpload` -/

/-- The fixed cap applied to the aggregate request body of a
non-superuser upload (`MaxProjectSize` at settings.go line 114). -/
def MaxProjectSize : Nat := 100 * 1024 * 1024

/-- Errors of the embedded upload pipeline. -/
inductive UploadErr where
  /-- the error of `http.MaxBytesReader` once a read passes the cap. -/
  | sizeLimit
deriving DecidableEq, Repr

/-- Reading `size` bytes from the request body after `consumed` bytes were
already consumed, through the optional `http.MaxBytesReader` cap: with no
cap the bytes are read; with a cap, a read that would pass it fails with
the size-limit error, so no bytes beyond the cap are ever consumed. -/
def readThroughCap (budget : Option Nat) (consumed size : Nat) :
    Except UploadErr Nat :=
  match budget with
  | none => .ok (consumed + size)
  | some cap => if cap < consumed + size then .error .sizeLimit else .ok (consumed + size)

/-- One upload part reduced to its transported byte count. -/
structure UploadPart where
  name : String
  size : Nat
deriving DecidableEq, Repr

/-- Result of the embedded upload pipeline: the names of the files
materialized, the total bytes consumed from the request body, and the
error that stopped the pipeline, if any. -/
structure UploadResult where
  written : List String
  consumed : Nat
  failure : Option UploadErr
deriving DecidableEq, Repr

/-- Modelled from the spec: section 4.1 `ApplyChanges` — the engine behind
`s.projects.UpdateFiles`, whose code is not under src/. For each part the
content provider yields, the engine reads the content in full through the
(possibly capped) request body and only then materializes the file; on a
read failure it stops, leaving the files already committed committed. -/
def processUploadFiles (budget : Option Nat) :
    List UploadPart → Nat → List String → UploadResult
  | [], consumed, written => ⟨written, consumed, none⟩
  | p :: rest, consumed, written =>
    match readThroughCap budget consumed p.size with
    | .error e => ⟨written, consumed, some e⟩
    | .ok consumedNew => processUploadFiles budget rest consumedNew (written ++ [p.name])

/-- One upload request reduced to what the size-cap logic observes: the
byte count of the leading metadata part, the file parts, and the
authenticated user. -/
structure UploadReq where
  metaSize : Nat
  files : List UploadPart
  user : User
deriving DecidableEq, Repr

/-- The body-reading pipeline of `handleUpload` (settings.go lines 99 to
167): when the caller is not a superuser the request body is wrapped in
`http.MaxBytesReader` with the 100 MB cap (lines 113 to 116), superuser
bodies are not wrapped; the first part (upload metadata) is read from the
capped body, then `UpdateFiles` consumes the file parts through
`nextFile`. -/
def handleUpload (req : UploadReq) : UploadResult :=
  let budget : Option Nat := if req.user.isSuperuser then none else some MaxProjectSize
  match readThroughCap budget 0 req.metaSize with
  | .error e => ⟨[], 0, some e⟩
  | .ok consumed => processUploadFiles budget req.files consumed []

/-! ## The file deletion handler -/

/-- Modelled from the spec: section 4.1 — the removals step of
`ApplyChanges` (the code of `s.projects.UpdateFiles` is not under src/):
removals delete the named paths from the manifest, and removing an absent
path is not an error. -/
def updateFilesRemoves (manifest removes : List String) : List String :=
  manifest.filter (fun p => removes.contains p = false)

/-- The handler body of `handleDeleteProjectFiles` (settings.go lines 213
to 231), applied to the decoded request body (the `files` list) and the
file manifest of the project: an empty file list is rejected with a
BadRequest error before `UpdateFiles` is called, so the manifest is
returned unchanged; otherwise the removals are applied and the new
manifest returned. The first component is the HTTP outcome, the second
the manifest after the call. -/
def handleDeleteProjectFiles (manifest : List String) (files : List String) :
    Except Unit (List String) × List String :=
  if files.length < 1 then (.error (), manifest)
  else
    let updated := updateFilesRemoves manifest files
    (.ok updated, updated)

/-! ## Concrete instances used to evaluate the handlers -/

/-- Layer data of a sample project: one layer named `parcels` with
identifier `l1`. -/
def demoLayersData : LayersData := ⟨[("parcels", "l1")]⟩

/-- Settings granting the full permission set on layer `l1` to every
user, and nothing on any other layer. -/
def fullPermissionSettings : ProjectSettings :=
  ⟨fun _ id => if id = "l1" then ⟨true, true, true, true⟩ else ⟨false, false, false, false⟩⟩

/-- Settings granting no permission to anyone. -/
def noPermissionSettings : ProjectSettings :=
  ⟨fun _ _ => ⟨false, false, false, false⟩⟩

/-- A sample non-superuser. -/
def demoUser : User := ⟨"joe", false⟩

/-- The parsed address of the map-rendering service. -/
def demoTargetURL : URL := ⟨"http", "qgis-server", "/ows", []⟩

/-- Environment with the published project `joe/city` whose layers all
grant the full permission set. -/
def envAllPerms : OwsEnv := {
  mapserverURL := demoTargetURL
  projectInfo := fun n => if n = "joe/city" then some ⟨"city.qgs", "published"⟩ else none
  settingsOf := fun n => if n = "joe/city" then some fullPermissionSettings else none
  layersDataOf := fun n => if n = "joe/city" then some demoLayersData else none }

/-- Environment identical to `envAllPerms` except that the project is in
state `draft`, not `published`. -/
def envDraft : OwsEnv := { envAllPerms with
  projectInfo := fun n => if n = "joe/city" then some ⟨"city.qgs", "draft"⟩ else none }

/-- Environment identical to `envAllPerms` except that no layer grants
any permission. -/
def envNoPerms : OwsEnv := { envAllPerms with
  settingsOf := fun n => if n = "joe/city" then some noPermissionSettings else none }

/-- A WFS transaction body holding a single Update operation on the
`parcels` layer. -/
def updateParcelsTx : Transaction := ⟨[⟨"parcels"⟩], [], []⟩

/-- A WFS transaction request against `joe/city`, with the `MAP` query
parameter naming the definition file of the same project. -/
def wfsTransactionInput : OwsInput := {
  userParam := "joe"
  nameParam := "city"
  params := ⟨"WFS", "", "joe/city.qgs"⟩
  body := .ok updateParcelsTx
  user := demoUser
  reqURL := ⟨"https", "gisquick.example", "/api/map/ows/joe/city", [("SERVICE", "WFS")]⟩
  userAgentHeader := none }

/-- A plain WMS GetMap request against `joe/city` (no transaction body). -/
def wmsGetMapInput : OwsInput := { wfsTransactionInput with
  params := ⟨"WMS", "GetMap", ""⟩
  body := .error () }

/-- A WFS transaction request whose URL path addresses `joe/city` while
its `MAP` query parameter names a different project. -/
def otherMapInput : OwsInput := { wfsTransactionInput with
  params := ⟨"WFS", "", "other/proj.qgs"⟩ }

/-- The request `handleMapOws` hands to the reverse proxy for
`wmsGetMapInput` in `envAllPerms` or `envDraft`. -/
def forwardedWmsRequest : ProxyRequest :=
  ⟨⟨"http", "qgis-server", "/ows",
    [("SERVICE", "WFS"), ("MAP", "/publish/joe/city/city.qgs")]⟩, some ""⟩

/-- A non-superuser upload request of two files whose aggregate size
passes the 100 MB cap only within the second file. -/
def overCapUploadReq : UploadReq :=
  ⟨100, [⟨"a.gpkg", 10⟩, ⟨"b.gpkg", 104857600⟩], ⟨"joe", false⟩⟩

/-- The same upload request issued by a superuser. -/
def superuserUploadReq : UploadReq :=
  ⟨100, [⟨"a.gpkg", 10⟩, ⟨"b.gpkg", 104857600⟩], ⟨"admin", true⟩⟩

/-- An upload state holding one part whose file name ends in `.gz`, whose
form name does not, and whose bytes are not a valid gzip stream. -/
def badGzipState : UploadState :=
  ⟨[⟨"data.gpkg", "data.gpkg.gz", [0, 0, 0]⟩], true, [], 0, []⟩

/-- An exhausted upload state about to signal end-of-stream, whose last
notification was sent at the current instant, so the half-second throttle
would suppress a throttled notification. -/
def drainedUploadState : UploadState :=
  ⟨[], true, [("project.qgs", 120)], 1000, []⟩

/-! ## Helper lemmas -/

/-- Setting a key in the query map and reading it back yields the value
just set. -/
theorem lookupAssoc_insertAssoc_self {α : Type} (q : List (String × α)) (k : String) (v : α) :
    lookupAssoc (insertAssoc q k v) k = some v := by
  induction q with
  | nil => simp [insertAssoc, lookupAssoc]
  | cons p rest ih =>
    by_cases h : p.1 = k
    · simp [insertAssoc, lookupAssoc, h]
    · simp [insertAssoc, lookupAssoc, h, ih]

/-- On an empty memoization map, the permission closure returns the
all-false permission literal, whatever the layer data and settings say. -/
theorem getLayerPermissions_nil_fst (L : LayersData) (S : ProjectSettings)
    (U : User) (t : String) :
    (getLayerPermissions L S U [] t).1 = ⟨false, false, false, false⟩ := rfl

/-- The Updates loop starting from the empty memo fails at its very first
operation. -/
theorem checkUpdates_cons_nil (L : LayersData) (S : ProjectSettings) (U : User)
    (u : UpdateOp) (rest : List UpdateOp) :
    checkUpdates L S U (u :: rest) [] = .error () := rfl

/-- The Insert objects loop starting from the empty memo fails at its very
first object. -/
theorem checkInsertObjects_cons_nil (L : LayersData) (S : ProjectSettings) (U : User)
    (o : InsertObject) (rest : List InsertObject) :
    checkInsertObjects L S U (o :: rest) [] = .error () := rfl

/-- The Deletes loop starting from the empty memo fails at its very first
operation. -/
theorem checkDeletes_cons_nil (L : LayersData) (S : ProjectSettings) (U : User)
    (d : DeleteOp) (rest : List DeleteOp) :
    checkDeletes L S U (d :: rest) [] = .error () := rfl

/-- Insert operations without objects contribute no permission check: the
Inserts loop over them succeeds with the memo still empty. -/
theorem checkInserts_ok_of_all_empty (L : LayersData) (S : ProjectSettings) (U : User)
    (l : List InsertOp) (h : ∀ i ∈ l, i.objects = []) :
    checkInserts L S U l [] = .ok [] := by
  induction l with
  | nil => rfl
  | cons i rest ih =>
    have hobj : i.objects = [] := h i (List.mem_cons_self i rest)
    have htail := ih (fun j hj => h j (List.mem_cons_of_mem i hj))
    simp [checkInserts, hobj, checkInsertObjects, htail]

/-- As soon as some Insert operation carries an object, the Inserts loop
starting from the empty memo fails. -/
theorem checkInserts_error_of_nonempty (L : LayersData) (S : ProjectSettings) (U : User)
    (l : List InsertOp) (h : ∃ i ∈ l, i.objects ≠ []) :
    checkInserts L S U l [] = .error () := by
  induction l with
  | nil => obtain ⟨i, hi, _⟩ := h; exact absurd hi (List.not_mem_nil i)
  | cons i rest ih =>
    cases hobj : i.objects with
    | nil =>
      obtain ⟨j, hj, hne⟩ := h
      rcases List.mem_cons.1 hj with hji | hjr
      · exact absurd (hji ▸ hobj) hne
      · have htail := ih ⟨j, hjr, hne⟩
        simp [checkInserts, hobj, checkInsertObjects, htail]
    | cons o os =>
      simp [checkInserts, hobj, checkInsertObjects_cons_nil]

/-- The authorization pass over a transaction that carries at least one
operation always fails: the memo starts empty, every memo miss returns the
all-false literal and aborts the pass at once, so no memo entry is ever
consulted and the very first operation is rejected. -/
theorem checkTransaction_error_of_op (L : LayersData) (S : ProjectSettings) (U : User)
    (tx : Transaction)
    (h : tx.updates ≠ [] ∨ (∃ i ∈ tx.inserts, i.objects ≠ []) ∨ tx.deletes ≠ []) :
    checkTransaction L S U tx = .error () := by
  obtain ⟨us, is, ds⟩ := tx
  simp only at h
  rcases h with h | h | h
  · cases us with
    | nil => exact absurd rfl h
    | cons u rest => simp [checkTransaction, checkUpdates_cons_nil]
  · cases us with
    | cons u rest => simp [checkTransaction, checkUpdates_cons_nil]
    | nil =>
      have hins := checkInserts_error_of_nonempty L S U is h
      simp [checkTransaction, checkUpdates, hins]
  · cases us with
    | cons u rest => simp [checkTransaction, checkUpdates_cons_nil]
    | nil =>
      by_cases hall : ∀ i ∈ is, i.objects = ([] : List InsertObject)
      · have hins := checkInserts_ok_of_all_empty L S U is hall
        cases ds with
        | nil => exact absurd rfl h
        | cons d rest => simp [checkTransaction, checkUpdates, hins, checkDeletes_cons_nil]
      · push_neg at hall
        have hins := checkInserts_error_of_nonempty L S U is hall
        simp [checkTransaction, checkUpdates, hins]

/-! ## Claim theorems -/

/-- C1: the claim states that a WFS transaction whose every referenced
layer grants the needed permission is forwarded to the backend renderer.
The code contradicts it: on a memo miss `getLayerPermissions` caches the
computed permission but returns the all-false literal, so even a
transaction consisting of one Update on the `parcels` layer, whose
resolved permission grants updating, is rejected with
`echo.ErrUnauthorized` instead of being forwarded. -/
theorem authorizedTransactionRejected :
    (resolveLayerPermission demoLayersData fullPermissionSettings demoUser "parcels").update = true ∧
    (handleMapOws envAllPerms wfsTransactionInput).result = OwsResult.unauthorized := by
  decide

/-- C2: the claim states that the memoized lookup is observationally pure,
the second and later calls for a layer returning the same value as the
first. The code contradicts it: the first (memo miss) call for `parcels`
returns the all-false literal while caching the real permission, and the
second call returns the cached full permission, so the two calls
disagree. -/
theorem memoizedLookupInconsistent :
    (getLayerPermissions demoLayersData fullPermissionSettings demoUser [] "parcels").1 =
      ⟨false, false, false, false⟩ ∧
    (getLayerPermissions demoLayersData fullPermissionSettings demoUser
      (getLayerPermissions demoLayersData fullPermissionSettings demoUser [] "parcels").2
      "parcels").1 = ⟨true, true, true, true⟩ ∧
    (getLayerPermissions demoLayersData fullPermissionSettings demoUser [] "parcels").1 ≠
    (getLayerPermissions demoLayersData fullPermissionSettings demoUser
      (getLayerPermissions demoLayersData fullPermissionSettings demoUser [] "parcels").2
      "parcels").1 := by
  decide

/-- C3: the claim states that an OWS request addressing a project whose
state is not `published` is rejected before the reverse proxy is invoked.
The code contradicts it: `handleMapOws` never reads the project state, so
a WMS GetMap request for the project in state `draft` is handed to the
reverse proxy. -/
theorem unpublishedProjectForwarded :
    envDraft.projectInfo "joe/city" = some ⟨"city.qgs", "draft"⟩ ∧
    (handleMapOws envDraft wmsGetMapInput).result = OwsResult.proxied forwardedWmsRequest := by
  decide

/-- C4: a WFS transaction body containing at least one Insert, Update or
Delete operation whose resolved layer permission lacks the corresponding
flag is answered with `echo.ErrUnauthorized`, and the reverse proxy is
never invoked for it (the outcome is `unauthorized`, not `proxied`). -/
theorem unauthorizedOpAborts (env : OwsEnv) (c : OwsInput) (pInfo : ProjectInfo)
    (settings : ProjectSettings) (layersData : LayersData) (tx : Transaction)
    (hsvc : c.params.service = "WFS") (hreq : c.params.request = "")
    (hpi : env.projectInfo (getProjectName c.userParam c.nameParam) = some pInfo)
    (hset : env.settingsOf (getProjectName c.userParam c.nameParam) = some settings)
    (hld : env.layersDataOf (goTrimSuffix c.params.map (goFilepathExt c.params.map)) =
      some layersData)
    (hbody : c.body = .ok tx)
    (hviol :
      (∃ u ∈ tx.updates,
        (resolveLayerPermission layersData settings c.user u.typeName).update = false) ∨
      (∃ i ∈ tx.inserts, ∃ o ∈ i.objects,
        (resolveLayerPermission layersData settings c.user o.xmlNameLocal).insert = false) ∨
      (∃ d ∈ tx.deletes,
        (resolveLayerPermission layersData settings c.user d.typeName).delete = false)) :
    (handleMapOws env c).result = OwsResult.unauthorized := by
  have hop : tx.updates ≠ [] ∨ (∃ i ∈ tx.inserts, i.objects ≠ []) ∨ tx.deletes ≠ [] := by
    rcases hviol with ⟨u, hu, _⟩ | ⟨i, hi, o, ho, _⟩ | ⟨d, hd, _⟩
    · exact Or.inl (List.ne_nil_of_mem hu)
    · exact Or.inr (Or.inl ⟨i, hi, List.ne_nil_of_mem ho⟩)
    · exact Or.inr (Or.inr (List.ne_nil_of_mem hd))
  have hcheck := checkTransaction_error_of_op layersData settings c.user tx hop
  simp [handleMapOws, hpi, hset, hsvc, hreq, hld, hbody, hcheck]

/-- Witness for C4: a transaction with one Update on a layer granting no
permission is rejected with the unauthorized outcome. -/
theorem unauthorizedOpAbortsWitness :
    (handleMapOws envNoPerms wfsTransactionInput).result = OwsResult.unauthorized :=
  unauthorizedOpAborts envNoPerms wfsTransactionInput ⟨"city.qgs", "published"⟩
    noPermissionSettings demoLayersData updateParcelsTx
    rfl rfl rfl rfl rfl rfl
    (Or.inl ⟨⟨"parcels"⟩, by decide, by decide⟩)

/-- Through a capped body, a file sequence whose remaining bytes pass the
cap ends in the size-limit error without the consumed byte count ever
passing the cap. -/
theorem processUploadFiles_capped_overflow (cap : Nat) (files : List UploadPart) :
    ∀ consumed written, consumed ≤ cap →
    cap < consumed + (files.map (fun p => p.size)).sum →
    (processUploadFiles (some cap) files consumed written).failure = some UploadErr.sizeLimit ∧
    (processUploadFiles (some cap) files consumed written).consumed ≤ cap := by
  induction files with
  | nil =>
    intro consumed written hle hover
    simp at hover
    omega
  | cons p rest ih =>
    intro consumed written hle hover
    by_cases hp : cap < consumed + p.size
    · simp [processUploadFiles, readThroughCap, hp, hle]
    · have hple : consumed + p.size ≤ cap := by omega
      have hover2 : cap < (consumed + p.size) + (rest.map (fun q => q.size)).sum := by
        simp at hover
        omega
      have := ih (consumed + p.size) (written ++ [p.name]) hple hover2
      simpa [processUploadFiles, readThroughCap, hp] using this

/-- Through an uncapped body, the whole file sequence is read and
materialized without failure. -/
theorem processUploadFiles_uncapped (files : List UploadPart) :
    ∀ consumed written,
    processUploadFiles none files consumed written =
      ⟨written ++ files.map (fun p => p.name),
       consumed + (files.map (fun p => p.size)).sum, none⟩ := by
  induction files with
  | nil => intro consumed written; simp [processUploadFiles]
  | cons p rest ih =>
    intro consumed written
    simp [processUploadFiles, readThroughCap, ih]
    omega

/-- C5 counterexample: the claim states that a non-superuser upload
exceeding the cap aborts before any file is materialized. The code wraps
the body in `http.MaxBytesReader`, which fails only at the read crossing
the cap, so the first file of `overCapUploadReq` is already materialized
when the second crosses the 100 MB cap. -/
theorem uploadCapEarlierFileMaterialized :
    (handleUpload overCapUploadReq).failure = some UploadErr.sizeLimit ∧
    (handleUpload overCapUploadReq).written = ["a.gpkg"] ∧
    (handleUpload overCapUploadReq).written ≠ [] := by
  decide

/-- C5 amended: for a non-superuser caller the aggregate request body is
capped at 100 MB; an upload whose aggregate size passes the cap aborts
with the size-limit error at the read that would cross the cap, without
consuming bytes beyond the cap, though files fully received under the cap
may already have been materialized; a superuser upload is not capped and
completes with every file materialized. -/
theorem uploadCapAmended (req : UploadReq) :
    (req.user.isSuperuser = false →
      MaxProjectSize < req.metaSize + (req.files.map (fun p => p.size)).sum →
      (handleUpload req).failure = some UploadErr.sizeLimit ∧
      (handleUpload req).consumed ≤ MaxProjectSize) ∧
    (req.user.isSuperuser = true →
      (handleUpload req).failure = none ∧
      (handleUpload req).written = req.files.map (fun p => p.name)) := by
  constructor
  · intro hsu hover
    by_cases hmeta : MaxProjectSize < req.metaSize
    · simp [handleUpload, hsu, readThroughCap, hmeta]
    · have hle : req.metaSize ≤ MaxProjectSize := by omega
      have := processUploadFiles_capped_overflow MaxProjectSize req.files
        req.metaSize [] hle hover
      simpa [handleUpload, hsu, readThroughCap, hmeta] using this
  · intro hsu
    simp [handleUpload, hsu, readThroughCap, processUploadFiles_uncapped]

/-- Witness for C5 amended: the capped two-file upload fails with the
size-limit error within the cap, and the same upload by a superuser
completes with both files materialized. -/
theorem uploadCapAmendedWitness :
    ((handleUpload overCapUploadReq).failure = some UploadErr.sizeLimit ∧
      (handleUpload overCapUploadReq).consumed ≤ MaxProjectSize) ∧
    ((handleUpload superuserUploadReq).failure = none ∧
      (handleUpload superuserUploadReq).written =
        superuserUploadReq.files.map (fun p => p.name)) :=
  ⟨(uploadCapAmended overCapUploadReq).1 (by decide) (by decide),
   (uploadCapAmended superuserUploadReq).2 (by decide)⟩

/-- C6: when the multipart content sequence ends with the end-of-stream
signal, `nextFile` sends a final `UploadProgress` snapshot to the
uploading user before returning the end-of-sequence error, for every
throttle state (any `lastNotification` instant) and any accumulated
progress snapshot. -/
theorem finalSnapshotOnStreamEnd (username : String) (st : UploadState)
    (hparts : st.parts = []) (heof : st.endIsEOF = true) :
    (nextFile username st).2.sent =
      st.sent ++ [(username, "UploadProgress", st.uploadProgress)] ∧
    (nextFile username st).1 = .error () := by
  obtain ⟨parts, endIsEOF, uploadProgress, lastNotification, sent⟩ := st
  simp only at hparts heof
  subst hparts heof
  simp [nextFile]

/-- Witness for C6: an exhausted stream whose last notification just
fired (so the half-second throttle would suppress a throttled
notification) still gets the final snapshot. -/
theorem finalSnapshotOnStreamEndWitness :
    (nextFile "joe" drainedUploadState).2.sent =
      drainedUploadState.sent ++
        [("joe", "UploadProgress", drainedUploadState.uploadProgress)] ∧
    (nextFile "joe" drainedUploadState).1 = .error () :=
  finalSnapshotOnStreamEnd "joe" drainedUploadState rfl rfl

/-- C9: for a part whose file name ends in `.gz` while its form name does
not, the error of `gzip.NewReader` is discarded; when the part bytes are
not a valid gzip stream, `nextFile` hands back the nil reader. -/
theorem gzipErrorDiscardedNilReader (username : String) (st : UploadState)
    (part : Part) (rest : List Part)
    (hparts : st.parts = part :: rest)
    (hfile : goHasSuffix part.fileName ".gz" = true)
    (hform : goHasSuffix part.formName ".gz" = false)
    (hbad : gzipNewReader part.content = .error ()) :
    (nextFile username st).1 = .ok (part.formName, ReaderHandle.nilReader) := by
  obtain ⟨parts, endIsEOF, uploadProgress, lastNotification, sent⟩ := st
  simp only at hparts
  subst hparts
  simp [nextFile, hfile, hform, hbad]

/-- Witness for C9: the part named `data.gpkg.gz` carrying bytes that are
not a gzip stream yields the nil reader. -/
theorem gzipErrorDiscardedNilReaderWitness :
    (nextFile "joe" badGzipState).1 = .ok ("data.gpkg", ReaderHandle.nilReader) :=
  gzipErrorDiscardedNilReader "joe" badGzipState
    ⟨"data.gpkg", "data.gpkg.gz", [0, 0, 0]⟩ [] rfl (by decide) (by decide) rfl

/-- C10: a file-deletion request whose decoded body holds an empty file
list is answered with the BadRequest error and the file manifest of the
project is unchanged, `UpdateFiles` never being reached. -/
theorem deleteFilesEmptyRejected (manifest files : List String)
    (hempty : files = []) :
    handleDeleteProjectFiles manifest files = (.error (), manifest) := by
  subst hempty
  simp [handleDeleteProjectFiles]

/-- Witness for C10: deleting an empty file list from a two-file manifest
returns the BadRequest error and the manifest as it was. -/
theorem deleteFilesEmptyRejectedWitness :
    handleDeleteProjectFiles ["city.qgs", "data/a.geojson"] [] =
      (.error (), ["city.qgs", "data/a.geojson"]) :=
  deleteFilesEmptyRejected ["city.qgs", "data/a.geojson"] [] rfl

/-- C7: every request `handleMapOws` hands to the reverse proxy carries a
`MAP` query parameter equal to the join of `/publish`, the project name
and the QGIS file of the project, and its URL scheme, host and path are
those of the configured map-rendering service. -/
theorem forwardedMapParamRewrite (env : OwsEnv) (c : OwsInput) (pInfo : ProjectInfo)
    (r : ProxyRequest)
    (hpi : env.projectInfo (getProjectName c.userParam c.nameParam) = some pInfo)
    (hres : (handleMapOws env c).result = OwsResult.proxied r) :
    getQueryParam r.url.query "MAP" =
      some (goFilepathJoin ["/publish", getProjectName c.userParam c.nameParam,
        pInfo.qgisFile]) ∧
    r.url.scheme = env.mapserverURL.scheme ∧
    r.url.host = env.mapserverURL.host ∧
    r.url.path = env.mapserverURL.path := by
  have hr : r = forwardToMapserver env c (getProjectName c.userParam c.nameParam) pInfo := by
    simp only [handleMapOws] at hres
    split at hres
    · simp at hres
    · rename_i pInfo2 hpi2
      rw [hpi] at hpi2
      cases Option.some.inj hpi2
      split at hres
      · simp at hres
      · split at hres
        · split at hres
          · simp at hres
          · split at hres
            · simp at hres
            · split at hres
              · simp at hres
              · simp only [OwsResult.proxied.injEq] at hres
                exact hres.symm
        · simp only [OwsResult.proxied.injEq] at hres
          exact hres.symm
  subst hr
  refine ⟨?_, rfl, rfl, rfl⟩
  simp [forwardToMapserver, director, getQueryParam, setQueryParam,
    lookupAssoc_insertAssoc_self]

/-- Witness for C7: a forwarded WMS GetMap request for `joe/city` carries
`MAP=/publish/joe/city/city.qgs` and the scheme, host and path of the
map-rendering service. -/
theorem forwardedMapParamRewriteWitness :
    getQueryParam forwardedWmsRequest.url.query "MAP" =
      some (goFilepathJoin ["/publish", getProjectName "joe" "city", "city.qgs"]) ∧
    forwardedWmsRequest.url.scheme = envAllPerms.mapserverURL.scheme ∧
    forwardedWmsRequest.url.host = envAllPerms.mapserverURL.host ∧
    forwardedWmsRequest.url.path = envAllPerms.mapserverURL.path :=
  forwardedMapParamRewrite envAllPerms wmsGetMapInput ⟨"city.qgs", "published"⟩
    forwardedWmsRequest (by decide) (by decide)

/-- C8: for a WFS transaction request, the project whose layer data is
loaded for authorization is the one named by the client-supplied `MAP`
query parameter with its extension trimmed, not the project addressed by
the user and name parameters of the URL path. -/
theorem layersDataKeyFromMapParam (env : OwsEnv) (c : OwsInput) (pInfo : ProjectInfo)
    (settings : ProjectSettings)
    (hsvc : c.params.service = "WFS") (hreq : c.params.request = "")
    (hpi : env.projectInfo (getProjectName c.userParam c.nameParam) = some pInfo)
    (hset : env.settingsOf (getProjectName c.userParam c.nameParam) = some settings) :
    (handleMapOws env c).layersDataCalls =
      [goTrimSuffix c.params.map (goFilepathExt c.params.map)] ∧
    (goTrimSuffix c.params.map (goFilepathExt c.params.map) ≠
        getProjectName c.userParam c.nameParam →
      (handleMapOws env c).layersDataCalls ≠
        [getProjectName c.userParam c.nameParam]) := by
  have h1 : (handleMapOws env c).layersDataCalls =
      [goTrimSuffix c.params.map (goFilepathExt c.params.map)] := by
    simp only [handleMapOws, hpi, hset]
    rw [if_pos (show c.params.service = "WFS" ∧ c.params.request = "" from ⟨hsvc, hreq⟩)]
    cases hld : env.layersDataOf (goTrimSuffix c.params.map (goFilepathExt c.params.map)) with
    | none => rfl
    | some layersData =>
      cases hb : c.body with
      | error e => rfl
      | ok tx =>
        cases hc : checkTransaction layersData settings c.user tx with
        | error e => simp [hc]
        | ok u => simp [hc]
  refine ⟨h1, fun hne => ?_⟩
  rw [h1]
  simp [hne]

/-- Witness for C8: a transaction request whose URL path addresses
`joe/city` but whose `MAP` parameter names `other/proj.qgs` loads layer
data for `other/proj`, not for `joe/city`. -/
theorem layersDataKeyFromMapParamWitness :
    (handleMapOws envAllPerms otherMapInput).layersDataCalls = ["other/proj"] ∧
    (handleMapOws envAllPerms otherMapInput).layersDataCalls ≠
      [getProjectName "joe" "city"] := by
  have h := layersDataKeyFromMapParam envAllPerms otherMapInput ⟨"city.qgs", "published"⟩
    fullPermissionSettings rfl rfl rfl rfl
  exact ⟨h.1.trans (by decide), h.2 (by decide)⟩

end Gisquick
